import Mathlib

/-!
Verification of the Certion reverse-proxy core against its sources.

Each definition below is a shallow embedding of a function of the Python
sources, translated statement by statement; the file then settles the
frozen claims about the firewall evaluator, the tunnel registry, the
control-channel response dispatch, the rate limiter, the cleanup path,
command completion and the subdomain utilities.

Modelling conventions used throughout:
- Python `dict` values are association lists `List (String × α)`; keyed
  assignment `d[k] = v` is `insertS` (replace in place or append),
  `del d[k]` / `d.pop(k, None)` is `removeS`, membership is `lookupS`.
- Python wall-clock times (`time.time()`, `datetime.utcnow()`) are `Int`.
- Python exceptions of a fallible step are `Except Unit`; a function that
  lets an exception escape returns `Except Unit α`.
- `str.lower()` / `str.upper()` act on the ASCII range (the only range the
  sources' comparisons depend on).
- `re.match(pattern, path)` of the firewall's pattern rules is abstracted
  as an oracle `RMatch := String → String → Except Unit Bool`: Python's
  `re.match` anchors at the start of `path`, returns a match or `None` for
  a valid pattern (`Except.ok`), and raises `re.error` for an invalid one
  (`Except.error`); the evaluator's control flow around that call is what
  is translated and proved.
-/

/-! ## Association-list model of Python dicts -/

def lookupS {α : Type} (m : List (String × α)) (k : String) : Option α :=
  match m with
  | [] => none
  | (k₁, v₁) :: rest => if k₁ = k then some v₁ else lookupS rest k

def insertS {α : Type} (m : List (String × α)) (k : String) (v : α) :
    List (String × α) :=
  match m with
  | [] => [(k, v)]
  | (k₁, v₁) :: rest => if k₁ = k then (k, v) :: rest else (k₁, v₁) :: insertS rest k v

def removeS {α : Type} (m : List (String × α)) (k : String) : List (String × α) :=
  m.filter (fun kv => decide (kv.1 ≠ k))

theorem lookupS_insertS {α : Type} (m : List (String × α)) (k k₂ : String) (v : α) :
    lookupS (insertS m k v) k₂ = if k = k₂ then some v else lookupS m k₂ := by
  induction m with
  | nil => simp [insertS, lookupS]
  | cons kv rest ih =>
    obtain ⟨k₁, v₁⟩ := kv
    simp only [insertS]
    by_cases h₁ : k₁ = k
    · subst h₁
      simp only [if_pos rfl, lookupS]
      by_cases h₂ : k₁ = k₂ <;> simp [h₂]
    · simp only [if_neg h₁, lookupS]
      by_cases h₂ : k₁ = k₂
      · subst h₂
        have h₃ : ¬(k = k₁) := fun h => h₁ h.symm
        simp [h₃, ih]
      · simp [h₂, ih]

theorem lookupS_removeS_self {α : Type} (m : List (String × α)) (k : String) :
    lookupS (removeS m k) k = none := by
  induction m with
  | nil => simp [removeS, lookupS]
  | cons kv rest ih =>
    by_cases h : kv.1 = k
    · simpa [removeS, List.filter, h] using ih
    · simp only [removeS, List.filter, decide_not] at ih ⊢
      simp [h, lookupS, ih]

/-! ## Subdomain utilities (src/subdomain_handling.py)

`normalize_subdomain` and `validate_subdomain_name` work character by
character, so the embedding works on `List Char` and wraps the string. -/

/-- `str.lower()` on the ASCII range. -/
def pyLowerChar (c : Char) : Char :=
  if 'A' ≤ c ∧ c ≤ 'Z' then Char.ofNat (c.toNat + 32) else c

def pyLowerChars (l : List Char) : List Char := l.map pyLowerChar

/-- The character class `[a-z0-9-]` of the subdomain regexes. -/
def allowedChar (c : Char) : Bool :=
  decide (('a' ≤ c ∧ c ≤ 'z') ∨ ('0' ≤ c ∧ c ≤ '9') ∨ c = '-')

def isDash (c : Char) : Bool := decide (c = '-')

/-- `.replace(' ', '-')`. -/
def replaceSpaces (l : List Char) : List Char :=
  l.map (fun c => if c = ' ' then '-' else c)

/-- `re.sub(r'[^a-z0-9-]', '', ·)`: drop every character outside the class. -/
def keepAllowed (l : List Char) : List Char := l.filter allowedChar

/-- `re.sub(r'-+', '-', ·)`: collapse every run of dashes to one dash. -/
def collapseDashes : List Char → List Char
  | [] => []
  | [c] => [c]
  | a :: b :: t =>
    if a = '-' ∧ b = '-' then collapseDashes (b :: t)
    else a :: collapseDashes (b :: t)

/-- `.strip('-')`, leading side. -/
def dropLeadingDashes (l : List Char) : List Char := l.dropWhile isDash

/-- `.strip('-')`, trailing side. -/
def dropTrailingDashes (l : List Char) : List Char :=
  (l.reverse.dropWhile isDash).reverse

def normalizeChars (l : List Char) : List Char :=
  dropTrailingDashes (dropLeadingDashes (collapseDashes (keepAllowed
    (replaceSpaces (pyLowerChars l)))))

/-- `normalize_subdomain(subdomain)`: lower, spaces to dashes, drop
characters outside `[a-z0-9-]`, collapse dash runs, strip edge dashes. -/
def normalize_subdomain (subdomain : String) : String :=
  String.mk (normalizeChars subdomain.data)

/-- Whether `re.match(r'^[a-z0-9-]+$', name)` matches: a nonempty run of
class characters, where Python's `$` also accepts one final newline. -/
def matchesClassLine (l : List Char) : Bool :=
  let core := if l.getLast? = some '\n' then l.dropLast else l
  !core.isEmpty && core.all allowedChar

def hasDoubleDash : List Char → Bool
  | a :: b :: t => if a = '-' ∧ b = '-' then true else hasDoubleDash (b :: t)
  | _ => false

/-- `validate_subdomain_name(name)`. -/
def validate_subdomain_name (name : String) : Bool :=
  if name = "" then false
  else if !matchesClassLine name.data then false
  else if name.data.head? = some '-' ∨ name.data.getLast? = some '-' then false
  else if hasDoubleDash name.data then false
  else true

example : normalize_subdomain "  My Project--X!  " = "my-project-x" := by decide
example : validate_subdomain_name "my-project-x" = true := by decide
example : validate_subdomain_name "-a" = false := by decide
example : normalize_subdomain "---" = "" := by decide

theorem mem_collapseDashes {c : Char} : ∀ {l : List Char},
    c ∈ collapseDashes l → c ∈ l := by
  intro l
  induction l using collapseDashes.induct with
  | case1 => simp [collapseDashes]
  | case2 d => simp [collapseDashes]
  | case3 a b t hab ih =>
    intro h
    rw [collapseDashes, if_pos hab] at h
    exact List.mem_cons_of_mem a (ih h)
  | case4 a b t hab ih =>
    intro h
    rw [collapseDashes, if_neg hab] at h
    rcases List.mem_cons.mp h with h | h
    · exact h ▸ List.mem_cons_self a _
    · exact List.mem_cons_of_mem a (ih h)

theorem head_collapseDashes (a : Char) (t : List Char) :
    (collapseDashes (a :: t)).head? = some a := by
  induction t generalizing a with
  | nil => rfl
  | cons b t ih =>
    by_cases hab : a = '-' ∧ b = '-'
    · rw [collapseDashes, if_pos hab, ih, hab.1, hab.2]
    · rw [collapseDashes, if_neg hab]
      rfl

theorem hasDoubleDash_collapseDashes : ∀ l : List Char,
    hasDoubleDash (collapseDashes l) = false := by
  intro l
  induction l using collapseDashes.induct with
  | case1 => rfl
  | case2 d => rfl
  | case3 a b t hab ih =>
    rw [collapseDashes, if_pos hab]
    exact ih
  | case4 a b t hab ih =>
    rw [collapseDashes, if_neg hab]
    have hhd := head_collapseDashes b t
    rcases hx : collapseDashes (b :: t) with _ | ⟨x, xs⟩
    · rfl
    · rw [hx] at hhd ih
      have hxb : x = b := by simpa using hhd
      subst hxb
      rw [hasDoubleDash, if_neg hab]
      exact ih

theorem hasDoubleDash_cons {a : Char} {t : List Char}
    (h : hasDoubleDash (a :: t) = false) : hasDoubleDash t = false := by
  rcases t with _ | ⟨b, t⟩
  · rfl
  · rw [hasDoubleDash] at h
    by_cases hab : a = '-' ∧ b = '-'
    · rw [if_pos hab] at h
      exact absurd h (by simp)
    · rwa [if_neg hab] at h

theorem hasDoubleDash_append_right {u v : List Char}
    (h : hasDoubleDash (u ++ v) = false) : hasDoubleDash v = false := by
  induction u with
  | nil => exact h
  | cons a u ih => exact ih (hasDoubleDash_cons h)

theorem hasDoubleDash_append_left {u v : List Char}
    (h : hasDoubleDash (u ++ v) = false) : hasDoubleDash u = false := by
  induction u with
  | nil => rfl
  | cons a u ih =>
    rcases u with _ | ⟨b, t⟩
    · rfl
    · rw [List.cons_append, List.cons_append] at h
      rw [hasDoubleDash]
      by_cases hab : a = '-' ∧ b = '-'
      · rw [hasDoubleDash, if_pos hab] at h
        exact absurd h (by simp)
      · rw [hasDoubleDash, if_neg hab] at h
        rw [if_neg hab]
        exact ih h

theorem dropWhile_decomp {α : Type} (p : α → Bool) (l : List α) :
    ∃ u, l = u ++ l.dropWhile p := by
  induction l with
  | nil => exact ⟨[], rfl⟩
  | cons a t ih =>
    by_cases h : p a
    · obtain ⟨u, hu⟩ := ih
      exact ⟨a :: u, by rw [List.dropWhile_cons_of_pos h, List.cons_append, ← hu]⟩
    · exact ⟨[], by rw [List.dropWhile_cons_of_neg h]; rfl⟩

theorem head_dropWhile_false {α : Type} (p : α → Bool) : ∀ (l : List α) {c : α},
    (l.dropWhile p).head? = some c → p c = false := by
  intro l
  induction l with
  | nil => intro c h; exact absurd h (by simp)
  | cons a t ih =>
    intro c h
    by_cases hp : p a
    · rw [List.dropWhile_cons_of_pos hp] at h
      exact ih h
    · rw [List.dropWhile_cons_of_neg hp] at h
      have : a = c := by simpa using h
      subst this
      exact Bool.eq_false_iff.mpr hp

theorem dropWhile_eq_self_of_head {α : Type} {p : α → Bool} {l : List α}
    (h : ∀ c, l.head? = some c → p c = false) : l.dropWhile p = l := by
  rcases l with _ | ⟨a, t⟩
  · rfl
  · exact List.dropWhile_cons_of_neg (by simp [h a rfl])

/-- Shape of `normalizeChars` output: every character in the class, no
double dash, no leading dash, no trailing dash. -/
theorem normalizeChars_shape (l : List Char) :
    (∀ c ∈ normalizeChars l, allowedChar c = true) ∧
    hasDoubleDash (normalizeChars l) = false ∧
    (∀ c, (normalizeChars l).head? = some c → isDash c = false) ∧
    (∀ c, (normalizeChars l).getLast? = some c → isDash c = false) := by
  simp only [normalizeChars]
  set X := collapseDashes (keepAllowed (replaceSpaces (pyLowerChars l))) with hX
  set Y := dropLeadingDashes X with hY
  set out := dropTrailingDashes Y with hout
  have hXallowed : ∀ c ∈ X, allowedChar c = true := by
    intro c hc
    have := mem_collapseDashes hc
    exact (List.mem_filter.mp this).2
  have hXdd : hasDoubleDash X = false := hasDoubleDash_collapseDashes _
  -- Y is a suffix of X
  obtain ⟨u, hu⟩ := dropWhile_decomp isDash X
  have hYdd : hasDoubleDash Y = false := hasDoubleDash_append_right (hu ▸ hXdd)
  have hYallowed : ∀ c ∈ Y, allowedChar c = true := by
    intro c hc
    exact hXallowed c (hu ▸ List.mem_append_right u hc)
  have hYhead : ∀ c, Y.head? = some c → isDash c = false := by
    intro c hc
    exact head_dropWhile_false isDash X hc
  -- out is a prefix of Y
  obtain ⟨w, hw⟩ := dropWhile_decomp isDash Y.reverse
  have hYrev : Y = out ++ w.reverse := by
    have : Y.reverse.reverse = (w ++ Y.reverse.dropWhile isDash).reverse := by
      rw [← hw]
    simpa [hout, dropTrailingDashes] using this
  refine ⟨?_, ?_, ?_, ?_⟩
  · intro c hc
    exact hYallowed c (hYrev ▸ List.mem_append_left _ hc)
  · exact hasDoubleDash_append_left (hYrev ▸ hYdd)
  · intro c hc
    rcases hone : out with _ | ⟨d, t⟩
    · rw [hone] at hc; exact absurd hc (by simp)
    · rw [hone] at hc
      have : d = c := by simpa using hc
      subst this
      apply hYhead
      rw [hYrev, hone]
      rfl
  · intro c hc
    have : (Y.reverse.dropWhile isDash).head? = some c := by
      have houtrev : out.reverse = Y.reverse.dropWhile isDash := by
        simp [hout, dropTrailingDashes]
      rw [← houtrev, List.head?_reverse]
      exact hc
    exact head_dropWhile_false isDash _ this

theorem map_self_of {α : Type} {f : α → α} : ∀ {l : List α},
    (∀ c ∈ l, f c = c) → l.map f = l := by
  intro l
  induction l with
  | nil => intro _; rfl
  | cons a t ih =>
    intro h
    rw [List.map_cons, h a (List.mem_cons_self a t),
      ih (fun c hc => h c (List.mem_cons_of_mem a hc))]

theorem mem_of_getLast?_eq {α : Type} : ∀ {l : List α} {a : α},
    l.getLast? = some a → a ∈ l := by
  intro l
  induction l with
  | nil => intro a h; exact absurd h (by simp)
  | cons x t ih =>
    intro a h
    rcases t with _ | ⟨y, t⟩
    · have : x = a := by simpa using h
      exact this ▸ List.mem_cons_self x _
    · rw [List.getLast?_cons_cons] at h
      exact List.mem_cons_of_mem x (ih h)

theorem allowedChar_not_upper {c : Char} (h : allowedChar c = true) :
    pyLowerChar c = c := by
  rw [pyLowerChar, if_neg]
  intro ⟨h1, h2⟩
  rcases of_decide_eq_true h with h3 | h3 | h3
  · exact absurd (le_trans h3.1 h2) (by decide)
  · exact absurd (le_trans h1 h3.2) (by decide)
  · rw [h3] at h1; exact absurd h1 (by decide)

theorem allowedChar_not_space {c : Char} (h : allowedChar c = true) :
    c ≠ ' ' := by
  intro hc
  subst hc
  exact absurd h (by decide)

theorem allowedChar_not_newline {c : Char} (h : allowedChar c = true) :
    c ≠ '\n' := by
  intro hc
  subst hc
  exact absurd h (by decide)

theorem collapseDashes_eq_self : ∀ {l : List Char},
    hasDoubleDash l = false → collapseDashes l = l := by
  intro l
  induction l using collapseDashes.induct with
  | case1 => intro _; rfl
  | case2 d => intro _; rfl
  | case3 a b t hab ih =>
    intro h
    rw [hasDoubleDash, if_pos hab] at h
    exact absurd h (by simp)
  | case4 a b t hab ih =>
    intro h
    rw [hasDoubleDash, if_neg hab] at h
    rw [collapseDashes, if_neg hab, ih h]

/-- `normalize_subdomain` is the identity on lists already in output
shape. -/
theorem normalizeChars_eq_self {l : List Char}
    (hall : ∀ c ∈ l, allowedChar c = true)
    (hdd : hasDoubleDash l = false)
    (hhead : ∀ c, l.head? = some c → isDash c = false)
    (hlast : ∀ c, l.getLast? = some c → isDash c = false) :
    normalizeChars l = l := by
  have h1 : pyLowerChars l = l :=
    map_self_of (fun c hc => allowedChar_not_upper (hall c hc))
  have h2 : replaceSpaces l = l :=
    map_self_of (fun c hc => if_neg (allowedChar_not_space (hall c hc)))
  have h3 : keepAllowed l = l := List.filter_eq_self.mpr hall
  have h4 : collapseDashes l = l := collapseDashes_eq_self hdd
  have h5 : dropLeadingDashes l = l := dropWhile_eq_self_of_head hhead
  have h6 : dropTrailingDashes l = l := by
    rw [dropTrailingDashes, dropWhile_eq_self_of_head, List.reverse_reverse]
    intro c hc
    rw [List.head?_reverse] at hc
    exact hlast c hc
  rw [normalizeChars, h1, h2, h3, h4, h5, h6]

theorem validate_of_shape {l : List Char} (hne : l ≠ [])
    (hall : ∀ c ∈ l, allowedChar c = true)
    (hdd : hasDoubleDash l = false)
    (hhead : ∀ c, l.head? = some c → isDash c = false)
    (hlast : ∀ c, l.getLast? = some c → isDash c = false) :
    validate_subdomain_name (String.mk l) = true := by
  have hdata : (String.mk l).data = l := rfl
  have hne' : String.mk l ≠ "" := by
    intro h
    exact hne (by simpa using congrArg String.data h)
  have hclass : matchesClassLine l = true := by
    rw [matchesClassLine]
    have hnl : ¬(l.getLast? = some '\n') := by
      intro h
      have := mem_of_getLast?_eq h
      exact allowedChar_not_newline (hall _ this) rfl
    rcases hl : l with _ | ⟨a, t⟩
    · exact absurd hl hne
    · rw [hl] at hnl hall
      simp only [if_neg hnl, List.isEmpty_cons, Bool.not_false, Bool.true_and,
        List.all_eq_true]
      exact hall
  have hh : ¬(l.head? = some '-' ∨ l.getLast? = some '-') := by
    rintro (h | h)
    · have := hhead _ h
      simp [isDash] at this
    · have := hlast _ h
      simp [isDash] at this
  rw [validate_subdomain_name, if_neg hne']
  simp only [hdata, hclass, Bool.not_true, if_neg hh, hdd]
  simp

/-- C10: `normalize_subdomain` returns either the empty string or a name
accepted by `validate_subdomain_name` (characters in `[a-z0-9-]`, no edge
hyphen, no double hyphen), and is idempotent on its own output. -/
theorem normalize_subdomain_valid_or_empty (s : String) :
    (normalize_subdomain s = "" ∨
      validate_subdomain_name (normalize_subdomain s) = true) ∧
    normalize_subdomain (normalize_subdomain s) = normalize_subdomain s := by
  obtain ⟨hall, hdd, hhead, hlast⟩ := normalizeChars_shape s.data
  constructor
  · by_cases he : normalizeChars s.data = []
    · left
      rw [normalize_subdomain, he]
    · right
      rw [normalize_subdomain]
      exact validate_of_shape he hall hdd hhead hlast
  · show String.mk (normalizeChars (normalizeChars s.data)) =
      String.mk (normalizeChars s.data)
    rw [normalizeChars_eq_self hall hdd hhead hlast]

/-! ## Firewall evaluator (src/firewall.py, src/firewall_aiohttp.py,
src/firewall_access.py)

A rule row's `to_dict()` fields used by the evaluator. -/

structure FirewallRule where
  id : Nat
  rule_type : String
  value : String
deriving DecidableEq, Repr

/-- Model of `re.match(pattern, path)`: `Except.error` is `re.error`
(invalid pattern), `Except.ok b` whether the anchored match succeeded. -/
def RMatch : Type := String → String → Except Unit Bool

/-- `str.upper()` on the ASCII range. -/
def pyUpperChar (c : Char) : Char :=
  if 'a' ≤ c ∧ c ≤ 'z' then Char.ofNat (c.toNat - 32) else c

def pyUpper (s : String) : String := String.mk (s.data.map pyUpperChar)

/-- A `method` rule hit: `method.upper() == rule['value'].upper()`. -/
def matchesMethodRule (method : String) (r : FirewallRule) : Bool :=
  decide (pyUpper method = pyUpper r.value)

def listIsPrefix : List Char → List Char → Bool
  | [], _ => true
  | _ :: _, [] => false
  | a :: as, b :: bs => decide (a = b) && listIsPrefix as bs

/-- `str.startswith` on the underlying character lists (the built-in
`String.startsWith` is extern-backed and does not reduce in the kernel). -/
def pyStartsWith (s pre : String) : Bool := listIsPrefix pre.data s.data

/-- A `path` rule hit:
`path == blocked_path or path.startswith(blocked_path + '/')`. -/
def matchesPathRule (path : String) (r : FirewallRule) : Bool :=
  decide (path = r.value) || pyStartsWith path (r.value ++ "/")

def methodBlockReason (method : String) (r : FirewallRule) : String :=
  "HTTP method '" ++ method ++ "' is blocked by firewall rule ID " ++ toString r.id

def pathBlockReason (path : String) (r : FirewallRule) : String :=
  "Path '" ++ path ++ "' matches blocked path '" ++ r.value ++
    "' (rule ID " ++ toString r.id ++ ")"

def patternBlockReason (path : String) (r : FirewallRule) : String :=
  "Path '" ++ path ++ "' matches blocked pattern '" ++ r.value ++
    "' (rule ID " ++ toString r.id ++ ")"

/-- The `pattern` loop: `re.match` hit returns the rule, miss continues,
`re.error` is logged and the rule skipped. -/
def checkPatternRules (rmatch : RMatch) (path : String) :
    List FirewallRule → Option FirewallRule
  | [] => none
  | r :: rest =>
    match rmatch r.value path with
    | Except.ok true => some r
    | Except.ok false => checkPatternRules rmatch path rest
    | Except.error _ => checkPatternRules rmatch path rest

/-- The shared rule-evaluation body of both `is_request_blocked`
implementations: partition the rules by type (the for-loop appends in
list order), then check method rules, path rules, pattern rules.
The `create_access_request` logging side effect on a block (aiohttp
variant only) writes a row no claim observes and is elided here. -/
def evalRules (rmatch : RMatch) (rules : List FirewallRule)
    (method path : String) : Bool × String :=
  let path_rules := rules.filter (fun r => decide (r.rule_type = "path"))
  let pattern_rules := rules.filter (fun r => decide (r.rule_type = "pattern"))
  let method_rules := rules.filter (fun r => decide (r.rule_type = "method"))
  match method_rules.find? (matchesMethodRule method) with
  | some r => (true, methodBlockReason method r)
  | none =>
    match path_rules.find? (matchesPathRule path) with
    | some r => (true, pathBlockReason path r)
    | none =>
      match checkPatternRules rmatch path pattern_rules with
      | some r => (true, patternBlockReason path r)
      | none => (false, "")

/-- `firewall.is_request_blocked` (src/firewall.py): loads the rules
(`loadRules` models `get_project_firewall_rules`, which can raise) and
evaluates them; it has no enclosing try/except, so a load exception
escapes to the caller. -/
def is_request_blocked_flask (loadRules : Except Unit (List FirewallRule))
    (rmatch : RMatch) (method path : String) : Except Unit (Bool × String) :=
  match loadRules with
  | Except.error e => Except.error e
  | Except.ok rules => Except.ok (evalRules rmatch rules method path)

/-- `firewall_aiohttp.is_request_blocked` (src/firewall_aiohttp.py).
`approval` models the `client_ip` branch's `get_db()` +
`is_ip_temporarily_approved` step (the session acquisition can raise),
`loadRules` the cached rule load. The whole body sits in a try/except
that turns any exception into `(False, "")`. `client_ip = ""` models a
falsy (absent) client ip. -/
def is_request_blocked_aiohttp (approval : Except Unit Bool)
    (loadRules : Except Unit (List FirewallRule)) (rmatch : RMatch)
    (method path client_ip : String) : Bool × String :=
  match
    (if client_ip ≠ "" then
      match approval with
      | Except.error e => Except.error e
      | Except.ok true => Except.ok (false, "")
      | Except.ok false =>
        match loadRules with
        | Except.error e => Except.error e
        | Except.ok rules => Except.ok (evalRules rmatch rules method path)
    else
      match loadRules with
      | Except.error e => Except.error e
      | Except.ok rules => Except.ok (evalRules rmatch rules method path) :
      Except Unit (Bool × String)) with
  | Except.ok r => r
  | Except.error _ => (false, "")

/-- A `firewall_access_requests` row, the fields
`is_ip_temporarily_approved` filters on. `approved_until` is nullable;
the SQL comparison `approved_until > now` is false on NULL. -/
structure AccessRequestRow where
  project_id : Nat
  ip_address : String
  method : String
  path : String
  status : String
  approved_until : Option Int
deriving DecidableEq, Repr

/-- `firewall_access.is_ip_temporarily_approved`: an `approved` row for
exactly this (project, ip, method, path) with `approved_until > now`. -/
def is_ip_temporarily_approved (db : List AccessRequestRow) (now : Int)
    (project_id : Nat) (ip_address method path : String) : Bool :=
  db.any fun r =>
    decide (r.project_id = project_id) && decide (r.ip_address = ip_address) &&
    decide (r.method = method) && decide (r.path = path) &&
    decide (r.status = "approved") &&
    (match r.approved_until with
     | some t => decide (now < t)
     | none => false)

/-- `firewall_aiohttp.is_request_blocked` with the approval lookup run
against an explicit access-request table. -/
def is_request_blocked_db (db : List AccessRequestRow) (now : Int)
    (project_id : Nat) (rules : List FirewallRule) (rmatch : RMatch)
    (method path client_ip : String) : Bool × String :=
  is_request_blocked_aiohttp
    (Except.ok (is_ip_temporarily_approved db now project_id client_ip method path))
    (Except.ok rules) rmatch method path client_ip

/-- Spec-side single-pass matcher for the refinement statement of the
first-match claim: one predicate over one ordered rule list. -/
def specRuleMatches (rmatch : RMatch) (method path : String)
    (r : FirewallRule) : Bool :=
  if r.rule_type = "method" then matchesMethodRule method r
  else if r.rule_type = "path" then matchesPathRule path r
  else if r.rule_type = "pattern" then
    match rmatch r.value path with
    | Except.ok true => true
    | _ => false
  else false

/-- Spec-side: the first matching rule in the order
{method rules, path rules, pattern rules}, each group in stored order,
invalid-regex pattern rules never matching. -/
def specFirstMatch (rmatch : RMatch) (rules : List FirewallRule)
    (method path : String) : Option FirewallRule :=
  (rules.filter (fun r => decide (r.rule_type = "method")) ++
   rules.filter (fun r => decide (r.rule_type = "path")) ++
   rules.filter (fun r => decide (r.rule_type = "pattern"))).find?
    (specRuleMatches rmatch method path)

/-- Spec-side: the reason the block cites for a given matched rule. -/
def specBlockReason (method path : String) (r : FirewallRule) : String :=
  if r.rule_type = "method" then methodBlockReason method r
  else if r.rule_type = "path" then pathBlockReason path r
  else patternBlockReason path r

example :
    evalRules (fun _ _ => Except.error ())
      [⟨1, "pattern", "["⟩, ⟨2, "path", "/admin"⟩] "GET" "/admin/panel" =
    (true, pathBlockReason "/admin/panel" ⟨2, "path", "/admin"⟩) := by decide
example :
    evalRules (fun p s => Except.ok (p = "x" && s = "/x"))
      [⟨1, "pattern", "x"⟩, ⟨2, "method", "get"⟩] "GET" "/x" =
    (true, methodBlockReason "GET" ⟨2, "method", "get"⟩) := by decide

theorem findAppend {α : Type} (l₁ l₂ : List α) (p : α → Bool) :
    (l₁ ++ l₂).find? p =
      match l₁.find? p with
      | some x => some x
      | none => l₂.find? p := by
  induction l₁ with
  | nil => rfl
  | cons a t ih =>
    by_cases h : p a
    · rw [List.cons_append, List.find?_cons_of_pos _ h, List.find?_cons_of_pos _ h]
    · rw [List.cons_append, List.find?_cons_of_neg _ h, List.find?_cons_of_neg _ h, ih]

theorem findCongrOn {α : Type} {p q : α → Bool} : ∀ {l : List α},
    (∀ x ∈ l, p x = q x) → l.find? p = l.find? q := by
  intro l
  induction l with
  | nil => intro _; rfl
  | cons a t ih =>
    intro h
    have ha := h a (List.mem_cons_self a t)
    by_cases hp : p a
    · rw [List.find?_cons_of_pos _ hp, List.find?_cons_of_pos _ (ha ▸ hp)]
    · rw [List.find?_cons_of_neg _ hp, List.find?_cons_of_neg _ (fun hq => hp (ha ▸ hq)),
        ih (fun x hx => h x (List.mem_cons_of_mem a hx))]

def patternPred (rmatch : RMatch) (path : String) (r : FirewallRule) : Bool :=
  match rmatch r.value path with
  | Except.ok true => true
  | _ => false

theorem checkPatternRules_eq_find (rmatch : RMatch) (path : String) :
    ∀ l : List FirewallRule,
      checkPatternRules rmatch path l = l.find? (patternPred rmatch path) := by
  intro l
  induction l with
  | nil => rfl
  | cons r t ih =>
    rcases h : rmatch r.value path with e | b
    · rw [checkPatternRules, h, ih,
        List.find?_cons_of_neg _ (by simp [patternPred, h])]
    · rcases b with _ | _
      · rw [checkPatternRules, h, ih,
          List.find?_cons_of_neg _ (by simp [patternPred, h])]
      · rw [checkPatternRules, h,
          List.find?_cons_of_pos _ (by simp [patternPred, h])]

/-- The shared evaluation body refines the spec's single ordered
first-match scan. -/
theorem evalRules_eq_specFirstMatch (rmatch : RMatch)
    (rules : List FirewallRule) (method path : String) :
    evalRules rmatch rules method path =
      match specFirstMatch rmatch rules method path with
      | some r => (true, specBlockReason method path r)
      | none => (false, "") := by
  rw [evalRules, specFirstMatch]
  set M := rules.filter (fun r => decide (r.rule_type = "method")) with hM
  set P := rules.filter (fun r => decide (r.rule_type = "path")) with hP
  set Q := rules.filter (fun r => decide (r.rule_type = "pattern")) with hQ
  have hMty : ∀ r ∈ M, r.rule_type = "method" := by
    intro r hr
    simpa using (List.mem_filter.mp hr).2
  have hPty : ∀ r ∈ P, r.rule_type = "path" := by
    intro r hr
    simpa using (List.mem_filter.mp hr).2
  have hQty : ∀ r ∈ Q, r.rule_type = "pattern" := by
    intro r hr
    simpa using (List.mem_filter.mp hr).2
  rw [findAppend, findAppend]
  rw [findCongrOn (p := specRuleMatches rmatch method path)
    (q := matchesMethodRule method)
    (fun r hr => by rw [specRuleMatches, if_pos (hMty r hr)])]
  rcases hm : M.find? (matchesMethodRule method) with _ | r
  · rw [findCongrOn (p := specRuleMatches rmatch method path)
      (q := matchesPathRule path)
      (fun r hr => by
        rw [specRuleMatches, if_neg (by rw [hPty r hr]; decide),
          if_pos (hPty r hr)])]
    rcases hp : P.find? (matchesPathRule path) with _ | r
    · rw [checkPatternRules_eq_find,
        findCongrOn (p := specRuleMatches rmatch method path)
        (q := patternPred rmatch path)
        (fun r hr => by
          rw [specRuleMatches, if_neg (by rw [hQty r hr]; decide),
            if_neg (by rw [hQty r hr]; decide), if_pos (hQty r hr)]
          rfl)]
      rcases hq : Q.find? (patternPred rmatch path) with _ | r
      · rfl
      · have hty := hQty r (List.mem_of_find?_eq_some hq)
        simp only [specBlockReason, hty]
        rfl
    · have hty := hPty r (List.mem_of_find?_eq_some hp)
      simp only [specBlockReason, hty]
      rfl
  · have hty := hMty r (List.mem_of_find?_eq_some hm)
    simp only [specBlockReason, hty]
    rfl

/-- C1: both `is_request_blocked` implementations check method rules
first, then path rules (exact match or prefix extended with `/`), then
pattern rules (via `re.match`, whose invalid-regex error is skipped and
evaluation continues), and the (blocked, reason) result cites the first
matching rule in that order: each evaluator equals the single ordered
first-match scan `specFirstMatch` with its per-rule reason. -/
theorem firewall_first_match (rmatch : RMatch) (rules : List FirewallRule)
    (method path client_ip : String) :
    is_request_blocked_flask (Except.ok rules) rmatch method path =
      Except.ok (match specFirstMatch rmatch rules method path with
        | some r => (true, specBlockReason method path r)
        | none => (false, "")) ∧
    is_request_blocked_aiohttp (Except.ok false) (Except.ok rules) rmatch
        method path client_ip =
      (match specFirstMatch rmatch rules method path with
        | some r => (true, specBlockReason method path r)
        | none => (false, "")) := by
  constructor
  · rw [is_request_blocked_flask, evalRules_eq_specFirstMatch]
  · unfold is_request_blocked_aiohttp
    by_cases h : client_ip = ""
    · rw [if_neg (not_not_intro h)]
      exact evalRules_eq_specFirstMatch rmatch rules method path
    · rw [if_pos h]
      exact evalRules_eq_specFirstMatch rmatch rules method path

/-- C2: once the rules alone would block, the aiohttp evaluator allows
the request iff the access-request table holds an `approved` row for
exactly the request's (project, ip, method, path) with
`approved_until > now`. -/
theorem approval_bypass_scope (db : List AccessRequestRow) (now : Int)
    (project_id : Nat) (rules : List FirewallRule) (rmatch : RMatch)
    (method path client_ip reason : String)
    (hip : client_ip ≠ "")
    (hblocked : evalRules rmatch rules method path = (true, reason)) :
    is_request_blocked_db db now project_id rules rmatch method path client_ip
        = (false, "") ↔
      ∃ r ∈ db, r.project_id = project_id ∧ r.ip_address = client_ip ∧
        r.method = method ∧ r.path = path ∧ r.status = "approved" ∧
        ∃ t, r.approved_until = some t ∧ now < t := by
  have hany : is_ip_temporarily_approved db now project_id client_ip method path
      = true ↔
      ∃ r ∈ db, r.project_id = project_id ∧ r.ip_address = client_ip ∧
        r.method = method ∧ r.path = path ∧ r.status = "approved" ∧
        ∃ t, r.approved_until = some t ∧ now < t := by
    rw [is_ip_temporarily_approved, List.any_eq_true]
    constructor
    · rintro ⟨r, hr, hpred⟩
      simp only [Bool.and_eq_true, decide_eq_true_eq] at hpred
      obtain ⟨⟨⟨⟨⟨h1, h2⟩, h3⟩, h4⟩, h5⟩, h6⟩ := hpred
      refine ⟨r, hr, h1, h2, h3, h4, h5, ?_⟩
      rcases hau : r.approved_until with _ | t
      · rw [hau] at h6
        exact absurd h6 (by simp)
      · rw [hau] at h6
        exact ⟨t, rfl, by simpa using h6⟩
    · rintro ⟨r, hr, h1, h2, h3, h4, h5, t, h6, h7⟩
      refine ⟨r, hr, ?_⟩
      simp only [Bool.and_eq_true, decide_eq_true_eq, h1, h2, h3, h4, h5, h6]
      simpa using h7
  rw [is_request_blocked_db]
  unfold is_request_blocked_aiohttp
  rw [if_pos hip]
  by_cases hb : is_ip_temporarily_approved db now project_id client_ip method path
      = true
  · rw [hb]
    exact iff_of_true rfl (hany.mp hb)
  · have hb' : is_ip_temporarily_approved db now project_id client_ip method path
        = false := by simpa using hb
    rw [hb']
    show evalRules rmatch rules method path = (false, "") ↔ _
    rw [hblocked]
    exact iff_of_false (by simp) (fun hex => hb (hany.mpr hex))

theorem approval_bypass_scope_witness :
    is_request_blocked_db
      [⟨7, "1.2.3.4", "GET", "/admin", "approved", some 10⟩] 5 7
      [⟨1, "method", "get"⟩] (fun _ _ => Except.ok false)
      "GET" "/admin" "1.2.3.4" = (false, "") := by
  have h := approval_bypass_scope
    [⟨7, "1.2.3.4", "GET", "/admin", "approved", some 10⟩] 5 7
    [⟨1, "method", "get"⟩] (fun _ _ => Except.ok false)
    "GET" "/admin" "1.2.3.4"
    (methodBlockReason "GET" ⟨1, "method", "get"⟩)
    (by decide) (by decide)
  exact h.mpr ⟨⟨7, "1.2.3.4", "GET", "/admin", "approved", some 10⟩,
    List.mem_cons_self _ _, rfl, rfl, rfl, rfl, rfl, 10, rfl, by decide⟩

/-- C6 counterexample: `firewall.is_request_blocked` (src/firewall.py) has
no enclosing try/except, so an exception of the rule load propagates to
the caller instead of returning allow. -/
theorem fail_open_cex :
    is_request_blocked_flask (Except.error ()) (fun _ _ => Except.ok false)
      "GET" "/" = Except.error () := rfl

/-- C6 amended: `firewall_aiohttp.is_request_blocked` catches any
exception of the approval lookup or the rule load and returns allow
`(False, "")`; the Flask-session evaluator in src/firewall.py does not
(see `fail_open_cex`). -/
theorem firewall_aiohttp_fail_open (approval : Except Unit Bool)
    (loadRules : Except Unit (List FirewallRule)) (rmatch : RMatch)
    (method path client_ip : String) :
    is_request_blocked_aiohttp approval (Except.error ()) rmatch method path
        client_ip = (false, "") ∧
    (client_ip ≠ "" →
      is_request_blocked_aiohttp (Except.error ()) loadRules rmatch method path
        client_ip = (false, "")) := by
  constructor
  · unfold is_request_blocked_aiohttp
    by_cases h : client_ip = ""
    · rw [if_neg (not_not_intro h)]
    · rw [if_pos h]
      rcases approval with e | b
      · rfl
      · rcases b <;> rfl
  · intro h
    unfold is_request_blocked_aiohttp
    rw [if_pos h]

/-! ## Tunnel registry and control channel (src/tunnels.py,
src/tunnels_with_firewall.py)

Connections are abstracted as numeric handles; the registry state is the
pair of module-level dicts `tunnels` and `tunnel_to_project`. -/

structure TunnelRegistry where
  tunnels : List (String × Nat)
  tunnel_to_project : List (String × Nat)
deriving DecidableEq, Repr

/-- The registration step of `tunnels.tunnel_control` (src/tunnels.py,
lines 228-256): if the subdomain is already in `tunnels`, the new
connection is sent `{type: "error"}` and closed and nothing is stored
(`false`); otherwise both maps gain the new connection (`true`). -/
def register_tunnel (st : TunnelRegistry) (subdomain : String)
    (conn project_id : Nat) : Bool × TunnelRegistry :=
  if (lookupS st.tunnels subdomain).isSome then
    (false, st)
  else
    (true, ⟨insertS st.tunnels subdomain conn,
            insertS st.tunnel_to_project subdomain project_id⟩)

/-- The registration step of `tunnels_with_firewall.tunnel_control`
(src/tunnels_with_firewall.py, lines 286-302): no duplicate check;
`tunnels[subdomain] = ws` and `tunnel_to_project[subdomain] = project_id`
overwrite whatever was there. -/
def register_tunnel_fw (st : TunnelRegistry) (subdomain : String)
    (conn project_id : Nat) : TunnelRegistry :=
  ⟨insertS st.tunnels subdomain conn,
   insertS st.tunnel_to_project subdomain project_id⟩

/-- C3 amended: in src/tunnels.py a handshake for an occupied subdomain is
rejected with an error and the registry is left untouched, and only an
absent subdomain stores the new connection in both maps. -/
theorem subdomain_unique_register (st : TunnelRegistry) (subdomain : String)
    (conn project_id : Nat) :
    ((lookupS st.tunnels subdomain).isSome →
      register_tunnel st subdomain conn project_id = (false, st)) ∧
    (lookupS st.tunnels subdomain = none →
      register_tunnel st subdomain conn project_id =
        (true, ⟨insertS st.tunnels subdomain conn,
                insertS st.tunnel_to_project subdomain project_id⟩) ∧
      lookupS (insertS st.tunnels subdomain conn) subdomain = some conn ∧
      lookupS (insertS st.tunnel_to_project subdomain project_id) subdomain =
        some project_id) := by
  constructor
  · intro h
    rw [register_tunnel, if_pos h]
  · intro h
    refine ⟨?_, ?_, ?_⟩
    · rw [register_tunnel, if_neg (by rw [h]; simp)]
    · rw [lookupS_insertS, if_pos rfl]
    · rw [lookupS_insertS, if_pos rfl]

/-- C3 counterexample: in src/tunnels_with_firewall.py a second handshake
for subdomain "demo" (connection 2, project 42) overwrites the live
tunnel (connection 1, project 41) in both maps: the existing tunnel's
registry entries are not left unchanged and the new connection is stored
although the subdomain was present. -/
theorem subdomain_unique_register_cex :
    register_tunnel_fw ⟨[("demo", 1)], [("demo", 41)]⟩ "demo" 2 42 =
      ⟨[("demo", 2)], [("demo", 42)]⟩ ∧
    lookupS (register_tunnel_fw ⟨[("demo", 1)], [("demo", 41)]⟩
      "demo" 2 42).tunnels "demo" ≠ some 1 := by
  constructor
  · rfl
  · decide

/-- A control-channel `http_response` frame as the message loop reads it:
`data.get('type')`, `data.get('request_id')` and the payload fields the
ingress later copies. `request_id = none` models a frame without the key. -/
structure RespFrame where
  ftype : String
  request_id : Option String
  status : Nat
  body : String
deriving DecidableEq, Repr

/-- One slot of `pending_requests`: the asyncio event, the response slot
and the creation timestamp. -/
structure PendingEntry where
  eventSet : Bool
  response : Option RespFrame
  timestamp : Int
deriving DecidableEq, Repr

/-- The message-loop body of `tunnels.tunnel_control` for one decoded
frame (src/tunnels.py lines 276-307): `pong` is ignored; an
`http_response` whose truthy `request_id` is a key of `pending_requests`
has the frame written into that entry's response slot and its event set;
anything else leaves the table untouched. -/
def handle_tunnel_message (pending : List (String × PendingEntry))
    (data : RespFrame) : List (String × PendingEntry) :=
  if data.ftype = "pong" then pending
  else if data.ftype = "http_response" then
    if (data.request_id.getD "") ≠ "" ∧
        (lookupS pending (data.request_id.getD "")).isSome then
      pending.map (fun kv =>
        if kv.1 = data.request_id.getD "" then
          (kv.1, { kv.2 with response := some data, eventSet := true })
        else kv)
    else pending
  else pending

/-- The ingress side (src/tunnels.py lines 403-409): a fresh id is bound
to an empty awaiter before the frame is sent. -/
def register_pending (pending : List (String × PendingEntry))
    (request_id : String) (now : Int) : List (String × PendingEntry) :=
  insertS pending request_id ⟨false, none, now⟩

/-- Every stored response carries its own key as `request_id`. -/
def wellCorrelated (pending : List (String × PendingEntry)) : Prop :=
  ∀ rid e, lookupS pending rid = some e →
    ∀ f, e.response = some f → f.request_id = some rid

theorem lookupS_map_key {α : Type} (f : α → α) (m : List (String × α))
    (rid x : String) :
    lookupS (m.map (fun kv => if kv.1 = rid then (kv.1, f kv.2) else kv)) x =
    if x = rid then (lookupS m x).map f else lookupS m x := by
  induction m with
  | nil => by_cases h : x = rid <;> simp [lookupS, h]
  | cons kv rest ih =>
    obtain ⟨k₁, v₁⟩ := kv
    simp only [List.map_cons]
    by_cases h₁ : k₁ = rid
    · subst h₁
      simp only [if_pos rfl]
      by_cases h₂ : k₁ = x
      · subst h₂
        simp [lookupS]
      · have h₃ : ¬(x = k₁) := fun h => h₂ h.symm
        simp [lookupS, h₂, h₃, ih]
    · simp only [if_neg h₁]
      by_cases h₂ : k₁ = x
      · subst h₂
        simp [lookupS, h₁]
      · simp [lookupS, h₂, ih]

/-- C4: response frames are correlated to requests solely by
`request_id`: a frame whose truthy `request_id` is a pending key updates
exactly that entry (so the response stored under the id the ingress
generated is the frame carrying that same id, preserving
`wellCorrelated`), and a frame with an unknown, empty or missing id
leaves every entry's slot and event untouched. -/
theorem request_response_correlation (pending : List (String × PendingEntry))
    (data : RespFrame) :
    ((∀ rid, data.request_id = some rid → rid = "" ∨ lookupS pending rid = none) →
      handle_tunnel_message pending data = pending) ∧
    (wellCorrelated pending → wellCorrelated (handle_tunnel_message pending data)) ∧
    (∀ rid e, data.ftype = "http_response" → data.request_id = some rid →
      rid ≠ "" → lookupS pending rid = some e →
      lookupS (handle_tunnel_message pending data) rid =
        some { e with response := some data, eventSet := true } ∧
      ∀ x, x ≠ rid →
        lookupS (handle_tunnel_message pending data) x = lookupS pending x) := by
  refine ⟨?_, ?_, ?_⟩
  · intro h
    rw [handle_tunnel_message]
    by_cases h1 : data.ftype = "pong"
    · rw [if_pos h1]
    · rw [if_neg h1]
      by_cases h2 : data.ftype = "http_response"
      · rw [if_pos h2, if_neg]
        rintro ⟨hne, hsome⟩
        rcases hr : data.request_id with _ | rid
        · rw [hr] at hne
          exact hne rfl
        · rw [hr] at hne hsome
          simp only [Option.getD_some] at hne hsome
          rcases h rid hr with h3 | h3
          · exact hne h3
          · rw [h3] at hsome
            exact absurd hsome (by simp)
      · rw [if_neg h2]
  · intro hw
    rw [handle_tunnel_message]
    by_cases h1 : data.ftype = "pong"
    · rw [if_pos h1]
      exact hw
    · rw [if_neg h1]
      by_cases h2 : data.ftype = "http_response"
      · rw [if_pos h2]
        by_cases h3 : (data.request_id.getD "") ≠ "" ∧
            (lookupS pending (data.request_id.getD "")).isSome
        · rw [if_pos h3]
          intro rid2 e2 hlk f hf
          rw [lookupS_map_key
            (fun e => { e with response := some data, eventSet := true })
            pending (data.request_id.getD "") rid2] at hlk
          by_cases hx : rid2 = data.request_id.getD ""
          · rw [if_pos hx] at hlk
            rcases hold : lookupS pending rid2 with _ | e0
            · rw [hold] at hlk
              exact absurd hlk (by simp)
            · rw [hold] at hlk
              simp only [Option.map_some', Option.some_inj] at hlk
              rw [← hlk] at hf
              simp only at hf
              have hfd : data = f := by simpa using hf
              subst hfd
              rcases hr : data.request_id with _ | rid
              · rw [hr] at h3
                exact absurd rfl h3.1
              · rw [hr] at hx
                simp only [Option.getD_some] at hx
                rw [hx]
          · rw [if_neg hx] at hlk
            exact hw rid2 e2 hlk f hf
        · rw [if_neg h3]
          exact hw
      · rw [if_neg h2]
        exact hw
  · intro rid e hresp hrid hne hlk
    have hgd : data.request_id.getD "" = rid := by rw [hrid]; rfl
    rw [handle_tunnel_message, if_neg (by rw [hresp]; decide), if_pos hresp, hgd]
    rw [if_pos ⟨hne, by rw [hlk]; rfl⟩]
    constructor
    · rw [lookupS_map_key
        (fun e => { e with response := some data, eventSet := true }) pending rid
        rid, if_pos rfl, hlk]
      rfl
    · intro x hx
      rw [lookupS_map_key
        (fun e => { e with response := some data, eventSet := true }) pending rid
        x, if_neg hx]

theorem request_response_correlation_witness :
    handle_tunnel_message [("aaaa", ⟨false, none, 0⟩)]
      ⟨"http_response", some "bbbb", 200, "hi"⟩ =
      [("aaaa", ⟨false, none, 0⟩)] ∧
    lookupS (handle_tunnel_message [("aaaa", ⟨false, none, 0⟩)]
      ⟨"http_response", some "aaaa", 200, "hi"⟩) "aaaa" =
      some ⟨true, some ⟨"http_response", some "aaaa", 200, "hi"⟩, 0⟩ := by
  constructor
  · exact (request_response_correlation [("aaaa", ⟨false, none, 0⟩)]
      ⟨"http_response", some "bbbb", 200, "hi"⟩).1
      (by intro rid hr; right; cases hr; decide)
  · exact ((request_response_correlation [("aaaa", ⟨false, none, 0⟩)]
      ⟨"http_response", some "aaaa", 200, "hi"⟩).2.2 "aaaa" ⟨false, none, 0⟩
      rfl rfl (by decide) (by decide)).1

/-! ## Control-channel cleanup (C8) -/

structure ProjectRow where
  id : Nat
  status : String
deriving DecidableEq, Repr

/-- `db.query(Project).filter_by(id=project_id).first()` +
`project.status = 'stopped'`: the matching row's status becomes
`stopped`, every other row is untouched. -/
def set_project_stopped (projects : List ProjectRow) (project_id : Nat) :
    List ProjectRow :=
  projects.map (fun p =>
    if p.id = project_id then { p with status := "stopped" } else p)

/-- The `finally` cleanup of `tunnels.tunnel_control` (src/tunnels.py
lines 317-338): pop the subdomain from both registry maps and set the
project's status to `stopped`. -/
def tunnel_cleanup (st : TunnelRegistry) (projects : List ProjectRow)
    (subdomain : String) (project_id : Nat) : TunnelRegistry × List ProjectRow :=
  (⟨removeS st.tunnels subdomain, removeS st.tunnel_to_project subdomain⟩,
   set_project_stopped projects project_id)

/-- The `finally` cleanup of `tunnels_with_firewall.tunnel_control`
(src/tunnels_with_firewall.py lines 333-339): deletes the subdomain from
both maps but never touches the project row. -/
def tunnel_cleanup_fw (st : TunnelRegistry) (projects : List ProjectRow)
    (subdomain : String) (project_id : Nat) : TunnelRegistry × List ProjectRow :=
  (⟨removeS st.tunnels subdomain, removeS st.tunnel_to_project subdomain⟩,
   projects)

/-- C8 amended: the cleanup path of src/tunnels.py removes the subdomain
from `tunnels` and `tunnel_to_project` and sets the project's status to
`stopped`, leaving other projects unchanged. -/
theorem tunnel_cleanup_deregisters (st : TunnelRegistry)
    (projects : List ProjectRow) (subdomain : String) (project_id : Nat) :
    lookupS (tunnel_cleanup st projects subdomain project_id).1.tunnels
      subdomain = none ∧
    lookupS (tunnel_cleanup st projects subdomain project_id).1.tunnel_to_project
      subdomain = none ∧
    ∀ p ∈ (tunnel_cleanup st projects subdomain project_id).2,
      (p.id = project_id → p.status = "stopped") ∧
      (p.id ≠ project_id → p ∈ projects) := by
  refine ⟨lookupS_removeS_self _ _, lookupS_removeS_self _ _, ?_⟩
  intro p hp
  simp only [tunnel_cleanup, set_project_stopped] at hp
  obtain ⟨q, hq, hpq⟩ := List.mem_map.mp hp
  constructor
  · intro _
    by_cases h : q.id = project_id
    · rw [if_pos h] at hpq
      rw [← hpq]
    · rw [if_neg h] at hpq
      rw [← hpq] at *
      exact absurd (by assumption) h
  · intro hid
    by_cases h : q.id = project_id
    · rw [if_pos h] at hpq
      rw [← hpq] at hid
      exact absurd h hid
    · rw [if_neg h] at hpq
      rw [← hpq]
      exact hq

theorem tunnel_cleanup_deregisters_witness :
    lookupS (tunnel_cleanup ⟨[("demo", 1)], [("demo", 7)]⟩ [⟨7, "running"⟩]
      "demo" 7).1.tunnels "demo" = none ∧
    (tunnel_cleanup ⟨[("demo", 1)], [("demo", 7)]⟩ [⟨7, "running"⟩]
      "demo" 7).2 = [⟨7, "stopped"⟩] :=
  ⟨(tunnel_cleanup_deregisters ⟨[("demo", 1)], [("demo", 7)]⟩ [⟨7, "running"⟩]
      "demo" 7).1, by decide⟩

/-- C8 counterexample: the cleanup path of src/tunnels_with_firewall.py
clears both maps but leaves the project's status `running` — it never
sets it to `stopped`. -/
theorem tunnel_cleanup_cex :
    tunnel_cleanup_fw ⟨[("demo", 1)], [("demo", 7)]⟩ [⟨7, "running"⟩]
      "demo" 7 = (⟨[], []⟩, [⟨7, "running"⟩]) ∧
    (⟨7, "running"⟩ : ProjectRow).status ≠ "stopped" := by
  constructor
  · rfl
  · decide

/-! ## Command completion (C9, src/projects.py complete_command) -/

structure CommandRow where
  action : String
  status : String
  result : Option String
  completed_at : Option Int
deriving DecidableEq, Repr

structure ProjectState where
  status : String
  pid : Option Nat
  last_started : Option Int
deriving DecidableEq, Repr

/-- `complete_command` (src/projects.py lines 607-656): unconditionally
sets the command's terminal state, result and completion time, then
updates the project by the command's action and the report's success.
There is no check of the command's current status. -/
def complete_command (cmd : CommandRow) (project : ProjectState)
    (success : Bool) (message : Option String) (pidArg : Option Nat)
    (now : Int) : CommandRow × ProjectState :=
  let cmd2 : CommandRow :=
    { cmd with status := if success then "completed" else "failed",
               result := message, completed_at := some now }
  let project2 : ProjectState :=
    if cmd.action = "start" then
      if success then
        { project with status := "running", pid := pidArg,
                       last_started := some now }
      else { project with status := "error" }
    else if cmd.action = "stop" then
      if success then { project with status := "stopped", pid := none }
      else { project with status := "error" }
    else if cmd.action = "restart" then
      if success then
        { project with status := "running", pid := pidArg,
                       last_started := some now }
      else { project with status := "error" }
    else project
  (cmd2, project2)

/-- C9 counterexample: a command already terminal (`completed`, result
"ok") is completed a second time with a failing report; the second call
is not a no-op — it flips the command to `failed` and the project to
`error`, because `complete_command` has no row-level status check. -/
theorem complete_command_cex :
    (complete_command ⟨"start", "completed", some "ok", some 1⟩
      ⟨"running", some 11, some 1⟩ false (some "boom") none 2).1.status =
      "failed" ∧
    (complete_command ⟨"start", "completed", some "ok", some 1⟩
      ⟨"running", some 11, some 1⟩ false (some "boom") none 2).2.status =
      "error" := by decide

/-- C9 amended: completion is idempotent only in the value-overwrite
sense: repeating the very same completion report leaves the command and
project states fixed; the code has no row-level terminal-state check, so
a later different report overwrites them (see the counterexample). -/
theorem complete_command_idempotent (cmd : CommandRow)
    (project : ProjectState) (success : Bool) (message : Option String)
    (pidArg : Option Nat) (now : Int) :
    complete_command (complete_command cmd project success message pidArg now).1
      (complete_command cmd project success message pidArg now).2
      success message pidArg now =
    complete_command cmd project success message pidArg now := by
  rcases cmd with ⟨action, status, result, cat⟩
  by_cases h1 : action = "start"
  · rcases success <;> simp [complete_command, h1]
  · by_cases h2 : action = "stop"
    · rcases success <;> simp [complete_command, h1, h2]
    · by_cases h3 : action = "restart"
      · rcases success <;> simp [complete_command, h1, h2, h3]
      · rcases success <;> simp [complete_command, h1, h2, h3]

/-! ## Incoming-header normalization (C5) -/

def pyLower (s : String) : String := String.mk (pyLowerChars s.data)

/-- The hop-by-hop skip set of
`tunnels_with_firewall.normalize_incoming_headers`. -/
def hop_by_hop : List String :=
  ["connection", "keep-alive", "proxy-authenticate", "proxy-authorization",
   "te", "trailers", "transfer-encoding", "upgrade"]

/-- `normalize_incoming_headers` of src/tunnels_with_firewall.py
(lines 107-133): lowercase each name, skip the hop-by-hop set and
`host`, store the rest. -/
def normalize_incoming_headers_fw (hdrs : List (String × String)) :
    List (String × String) :=
  hdrs.foldl (fun result kv =>
    let k := pyLower kv.1
    if hop_by_hop.contains k then result
    else if k = "host" then result
    else insertS result k kv.2) []

/-- `normalize_incoming_headers` of src/tunnels.py (lines 102-113): only
`str()` conversion of each name and value — nothing is stripped. -/
def normalize_incoming_headers_plain (hdrs : List (String × String)) :
    List (String × String) :=
  hdrs.foldl (fun result kv => insertS result kv.1 kv.2) []

theorem all_insertS {α : Type} (P : String × α → Bool)
    (m : List (String × α)) (k : String) (v : α)
    (hm : m.all P = true) (hkv : P (k, v) = true) :
    (insertS m k v).all P = true := by
  induction m with
  | nil => simpa [insertS]
  | cons kv₁ rest ih =>
    obtain ⟨k₁, v₁⟩ := kv₁
    rw [List.all_cons, Bool.and_eq_true] at hm
    by_cases h : k₁ = k
    · rw [insertS, if_pos h, List.all_cons, Bool.and_eq_true]
      exact ⟨hkv, hm.2⟩
    · rw [insertS, if_neg h, List.all_cons, Bool.and_eq_true]
      exact ⟨hm.1, ih hm.2⟩

/-- C5 amended: every header name the firewall variant's
`normalize_incoming_headers` emits is lowercased past the skip test, so
none of the nine hop-by-hop names (`host` included) appears in the
framed headers map; the plain variant in src/tunnels.py strips nothing
(see the counterexample). -/
theorem hop_by_hop_stripped (hdrs : List (String × String)) :
    (normalize_incoming_headers_fw hdrs).all
      (fun kv => !(hop_by_hop.contains kv.1) && !(kv.1 == "host")) = true := by
  rw [normalize_incoming_headers_fw]
  have main : ∀ (l : List (String × String)) (acc : List (String × String)),
      acc.all (fun kv => !(hop_by_hop.contains kv.1) && !(kv.1 == "host")) = true →
      (l.foldl (fun result kv =>
        let k := pyLower kv.1
        if hop_by_hop.contains k then result
        else if k = "host" then result
        else insertS result k kv.2) acc).all
        (fun kv => !(hop_by_hop.contains kv.1) && !(kv.1 == "host")) = true := by
    intro l
    induction l with
    | nil => intro acc h; exact h
    | cons kv t ih =>
      intro acc h
      rw [List.foldl_cons]
      by_cases h1 : hop_by_hop.contains (pyLower kv.1)
      · simp only [if_pos h1]
        exact ih acc h
      · simp only [if_neg h1]
        by_cases h2 : pyLower kv.1 = "host"
        · simp only [if_pos h2]
          exact ih acc h
        · simp only [if_neg h2]
          refine ih _ (all_insertS _ acc (pyLower kv.1) kv.2 h ?_)
          simp only [Bool.and_eq_true, Bool.not_eq_true']
          refine ⟨by simpa using h1, ?_⟩
          simpa using h2
  exact main hdrs [] rfl

/-- C5 counterexample: the plain variant (src/tunnels.py) keeps
`connection` and `host` in the framed headers map verbatim. -/
theorem hop_by_hop_stripped_cex :
    normalize_incoming_headers_plain
      [("connection", "close"), ("host", "a.example")] =
      [("connection", "close"), ("host", "a.example")] ∧
    hop_by_hop.contains "connection" = true := by decide

/-! ## Rate limiting (C7, src/tunnels.py check_rate_limit and
src/tunnels_with_firewall.py check_rate_limit) -/

/-- The per-ip body of `tunnels.check_rate_limit` (lines 45-61): keep the
timestamps within the strict 60 s window, reject when 100 remain, else
append `now` and accept. -/
def stepRL (store : List Int) (now : Int) : List Int × Bool :=
  let pruned := store.filter (fun t => decide (now - t < 60))
  if 100 ≤ pruned.length then (pruned, false)
  else (pruned ++ [now], true)

/-- `tunnels.check_rate_limit` on the `defaultdict(list)` store:
`rate_limit_store[ip]` (default `[]`) is pruned and written back, then
the cap check and the append. -/
def check_rate_limit (store : List (String × List Int)) (ip : String)
    (now : Int) : List (String × List Int) × Bool :=
  let r := stepRL ((lookupS store ip).getD []) now
  (insertS store ip r.1, r.2)

def runRL (store : List (String × List Int)) :
    List (String × Int) → List ((String × Int) × Bool)
  | [] => []
  | e :: es =>
    let r := check_rate_limit store e.1 e.2
    (e, r.2) :: runRL r.1 es

def runRL1 (store : List Int) : List Int → List (Int × Bool)
  | [] => []
  | t :: ts =>
    let r := stepRL store t
    (t, r.2) :: runRL1 r.1 ts

def acceptedTimes1 (l : List (Int × Bool)) : List Int :=
  (l.filter (fun tb => tb.2)).map (fun tb => tb.1)

def acceptedTimesFor (ip : String) (l : List ((String × Int) × Bool)) :
    List Int :=
  (l.filter (fun eb => eb.2 && decide (eb.1.1 = ip))).map (fun eb => eb.1.2)

def inWindow (w u : Int) : Bool := decide (w ≤ u) && decide (u < w + 60)

/-- Number of accepted requests falling in the sliding window
`[w, w + 60)`. -/
def windowCount (w : Int) (l : List Int) : Nat :=
  (l.filter (inWindow w)).length

/-- Events of other ips never touch an ip's store entry: the keyed run
projects onto the single-ip run over that ip's event times. -/
theorem runRL_project (ip : String) : ∀ (events : List (String × Int))
    (store : List (String × List Int)),
    acceptedTimesFor ip (runRL store events) =
      acceptedTimes1 (runRL1 ((lookupS store ip).getD [])
        ((events.filter (fun e => decide (e.1 = ip))).map (fun e => e.2))) := by
  intro events
  induction events with
  | nil => intro store; rfl
  | cons e es ih =>
    intro store
    rcases e with ⟨ip1, t⟩
    by_cases h : ip1 = ip
    · subst h
      rw [List.filter_cons_of_pos (by simp), List.map_cons, runRL, runRL1]
      simp only [check_rate_limit]
      rw [acceptedTimesFor, List.filter_cons]
      by_cases hflag : (stepRL ((lookupS store ip1).getD []) t).2 = true
      · rw [if_pos (by simp [hflag]), List.map_cons]
        rw [acceptedTimes1, List.filter_cons, if_pos (by simpa using hflag),
          List.map_cons]
        have := ih (insertS store ip1 (stepRL ((lookupS store ip1).getD []) t).1)
        rw [acceptedTimesFor] at this
        rw [this, lookupS_insertS, if_pos rfl]
        rfl
      · rw [if_neg (by simp [hflag]), acceptedTimes1, List.filter_cons,
          if_neg (by simpa using hflag)]
        have := ih (insertS store ip1 (stepRL ((lookupS store ip1).getD []) t).1)
        rw [acceptedTimesFor] at this
        rw [this, lookupS_insertS, if_pos rfl]
        rfl
    · rw [List.filter_cons_of_neg (by simpa using h), runRL]
      simp only [check_rate_limit]
      rw [acceptedTimesFor, List.filter_cons,
        if_neg (by simp [h]), ← acceptedTimesFor]
      have := ih (insertS store ip1 (stepRL ((lookupS store ip1).getD []) t).1)
      rw [this, lookupS_insertS, if_neg h]

theorem acceptedTimes1_mem : ∀ (ts : List Int) (S : List Int) (u : Int),
    u ∈ acceptedTimes1 (runRL1 S ts) → u ∈ ts := by
  intro ts
  induction ts with
  | nil =>
    intro S u h
    exact absurd h (by simp [runRL1, acceptedTimes1])
  | cons t ts ih =>
    intro S u h
    simp only [runRL1, acceptedTimes1, List.filter_cons] at h
    by_cases hf : (stepRL S t).2 = true
    · rw [if_pos (by simpa using hf), List.map_cons] at h
      rcases List.mem_cons.mp h with h | h
      · exact h ▸ List.mem_cons_self t ts
      · exact List.mem_cons_of_mem t (ih _ u h)
    · rw [if_neg (by simpa using hf)] at h
      exact List.mem_cons_of_mem t (ih _ u h)

theorem windowCount_nil_of_ge (w : Int) (l : List Int)
    (h : ∀ u ∈ l, w + 60 ≤ u) : windowCount w l = 0 := by
  rw [windowCount, List.filter_eq_nil_iff.mpr]
  · rfl
  · intro u hu
    have := h u hu
    simp only [inWindow, Bool.and_eq_true, decide_eq_true_eq, not_and]
    intro _
    omega

theorem countGE_pruned (S : List Int) (t w : Int) (hwt : t < w + 60) :
    ((S.filter (fun u => decide (t - u < 60))).filter
      (fun u => decide (w ≤ u))).length =
    (S.filter (fun u => decide (w ≤ u))).length := by
  rw [List.filter_filter]
  congr 1
  apply List.filter_congr
  intro u _
  by_cases hw : w ≤ u
  · have h1 : decide (w ≤ u) = true := decide_eq_true hw
    have h2 : decide (t - u < 60) = true := decide_eq_true (by omega)
    rw [h1, h2]
    rfl
  · have h1 : decide (w ≤ u) = false := decide_eq_false hw
    rw [h1, Bool.false_and]

/-- One accepted request keeps at most 99 earlier in-window companions:
over a nondecreasing trace, starting from a store whose entries precede
every event, the accepted requests falling in any window `[w, w + 60)`
plus the (capped) in-window store occupancy never exceed the cap 100. -/
theorem runRL1_window_bound : ∀ (ts : List Int) (S : List Int) (w : Int),
    List.Pairwise (· ≤ ·) ts →
    (∀ u ∈ S, ∀ t ∈ ts, u ≤ t) →
    windowCount w (acceptedTimes1 (runRL1 S ts)) +
      min 100 ((S.filter (fun u => decide (w ≤ u))).length) ≤ 100 := by
  intro ts
  induction ts with
  | nil =>
    intro S w _ _
    have h0 : windowCount w (acceptedTimes1 (runRL1 S [])) = 0 := rfl
    rw [h0]
    omega
  | cons t ts ih =>
    intro S w hsort hle
    obtain ⟨hthead, htail⟩ := List.pairwise_cons.mp hsort
    rcases hstep : stepRL S t with ⟨S2, flag⟩
    simp only [runRL1, hstep]
    simp only [stepRL] at hstep
    generalize hpruned : S.filter (fun u => decide (t - u < 60)) = pruned at hstep
    have hprunedS : ∀ u ∈ pruned, u ∈ S := by
      intro u hu
      rw [← hpruned] at hu
      exact (List.mem_filter.mp hu).1
    have hpls : ∀ u ∈ pruned, ∀ t2 ∈ ts, u ≤ t2 :=
      fun u hu t2 ht2 => hle u (hprunedS u hu) t2 (List.mem_cons_of_mem t ht2)
    split_ifs at hstep with hcap
    · injection hstep with h1 h2
      subst h1
      subst h2
      rw [acceptedTimes1, List.filter_cons, if_neg (by simp), ← acceptedTimes1]
      by_cases hwt : t < w + 60
      · have hK : (pruned.filter (fun u => decide (w ≤ u))).length =
            (S.filter (fun u => decide (w ≤ u))).length := by
          rw [← hpruned]
          exact countGE_pruned S t w hwt
        have ihx := ih pruned w htail hpls
        rw [hK] at ihx
        exact ihx
      · have hz : windowCount w (acceptedTimes1 (runRL1 pruned ts)) = 0 :=
          windowCount_nil_of_ge _ _ (fun u hu => by
            have := hthead u (acceptedTimes1_mem ts pruned u hu)
            omega)
        rw [hz]
        omega
    · injection hstep with h1 h2
      subst h1
      subst h2
      rw [acceptedTimes1, List.filter_cons, if_pos (by simp), List.map_cons,
        ← acceptedTimes1]
      have hle2 : ∀ u ∈ pruned ++ [t], ∀ t2 ∈ ts, u ≤ t2 := by
        intro u hu t2 ht2
        rcases List.mem_append.mp hu with hu | hu
        · exact hpls u hu t2 ht2
        · rw [List.mem_singleton.mp hu]
          exact hthead t2 ht2
      have ihx := ih (pruned ++ [t]) w htail hle2
      have hflen : (pruned.filter (fun u => decide (w ≤ u))).length ≤
          pruned.length := List.length_filter_le _ _
      rw [List.filter_append] at ihx
      by_cases hwt : t < w + 60
      · have hK : (pruned.filter (fun u => decide (w ≤ u))).length =
            (S.filter (fun u => decide (w ≤ u))).length := by
          rw [← hpruned]
          exact countGE_pruned S t w hwt
        rw [windowCount, List.filter_cons]
        by_cases hw2 : w ≤ t
        · have hin : inWindow w t = true := by
            simp only [inWindow]
            rw [decide_eq_true hw2, decide_eq_true hwt]
            rfl
          rw [if_pos hin]
          have hsing : ([t].filter (fun u => decide (w ≤ u))) = [t] := by
            simp [hw2]
          rw [hsing, List.length_append, hK, List.length_singleton] at ihx
          simp only [windowCount] at ihx
          simp only [List.length_cons]
          omega
        · rw [if_neg (by simp [inWindow, hw2])]
          have hsing : ([t].filter (fun u => decide (w ≤ u))) = [] := by
            simp [hw2]
          rw [hsing, List.append_nil, hK] at ihx
          simp only [windowCount] at ihx
          omega
      · have hz : windowCount w
            (t :: acceptedTimes1 (runRL1 (pruned ++ [t]) ts)) = 0 :=
          windowCount_nil_of_ge _ _ (by
            intro u hu
            rcases List.mem_cons.mp hu with hu | hu
            · omega
            · have := hthead u (acceptedTimes1_mem ts (pruned ++ [t]) u hu)
              omega)
        rw [hz]
        omega

/-- C7 amended, src/tunnels.py side: with nondecreasing arrival times, at
most 100 requests from any IP pass `check_rate_limit` within any sliding
60-second window (the 101st within 60 s of 100 earlier accepted requests
is rejected, answered 429 before any frame is formed). -/
theorem rate_limit_sliding_window (events : List (String × Int)) (ip : String)
    (w : Int) (hsorted : List.Pairwise (· ≤ ·) (events.map Prod.snd)) :
    windowCount w (acceptedTimesFor ip (runRL [] events)) ≤ 100 := by
  rw [runRL_project ip events []]
  have hpw : List.Pairwise (· ≤ ·)
      ((events.filter (fun e => decide (e.1 = ip))).map (fun e => e.2)) := by
    rw [List.pairwise_map]
    rw [List.pairwise_map] at hsorted
    exact List.Pairwise.sublist (List.filter_sublist events) hsorted
  have hbound := runRL1_window_bound
    ((events.filter (fun e => decide (e.1 = ip))).map (fun e => e.2)) [] w hpw
    (by intro u hu; cases hu)
  have hnil : (lookupS ([] : List (String × List Int)) ip).getD [] =
      ([] : List Int) := rfl
  rw [hnil]
  have hzero : ((([] : List Int)).filter (fun u => decide (w ≤ u))).length = 0 :=
    rfl
  rw [hzero] at hbound
  omega

theorem rate_limit_sliding_window_witness :
    windowCount 0 (acceptedTimesFor "a" (runRL [] [("a", 0), ("a", 1)])) ≤ 100 :=
  rate_limit_sliding_window [("a", 0), ("a", 1)] "a" 0 (by decide)

/-- `check_rate_limit` of src/tunnels_with_firewall.py (lines 44-72): a
fixed window anchored at the first request; the counter resets when more
than 60 s have passed since the window's start, otherwise it increments
and rejects past 100. -/
def check_rate_limit_fw (store : List (String × (Nat × Int))) (ip : String)
    (now : Int) : List (String × (Nat × Int)) × Bool :=
  match lookupS store ip with
  | none => (insertS store ip (1, now), true)
  | some ct =>
    if 60 < now - ct.2 then (insertS store ip (1, now), true)
    else
      let n2 := ct.1 + 1
      if 100 < n2 then (insertS store ip (n2, ct.2), false)
      else (insertS store ip (n2, ct.2), true)

def runRLfw (store : List (String × (Nat × Int))) :
    List (String × Int) → List ((String × Int) × Bool)
  | [] => []
  | e :: es =>
    let r := check_rate_limit_fw store e.1 e.2
    (e, r.2) :: runRLfw r.1 es

def rlCexEvents : List (String × Int) :=
  ("a", (0 : Int)) ::
    (List.replicate 99 ("a", (60 : Int)) ++ List.replicate 101 ("a", (61 : Int)))

set_option maxRecDepth 4000 in
/-- C7 counterexample: under src/tunnels_with_firewall.py's fixed-window
`check_rate_limit`, the nondecreasing single-IP trace `rlCexEvents`
(1 request at t=0, 99 at t=60, 101 at t=61) gets 199 requests past the
limiter inside the sliding 60-second window [2, 62): the window expires
at t=61 (61 - 0 > 60), the counter resets, and 100 more requests are
accepted although 100 earlier accepted requests lie within 60 seconds. -/
theorem rate_limit_sliding_window_cex :
    windowCount 2 (acceptedTimesFor "a" (runRLfw [] rlCexEvents)) = 199 ∧
    List.Pairwise (· ≤ ·) (rlCexEvents.map Prod.snd) := by decide
